import Mathlib

/-!
Verification of the value-storage core of a Starlark runtime:
the insertion-ordered map `VecMap` (collections/vec_map.rs) and the
heap-value wrapper `AValue` / `Wrapper<Mode, T>` (values/layout/avalue.rs).

The map is embedded as a list of buckets; machine `usize` indices become
`Nat`, the truncated `SmallHashResult` becomes `Nat`, and the Rust
`Equivalent` trait becomes an explicit boolean relation parameter.
-/

set_option autoImplicit false

universe u v w

variable {K : Type u} {V : Type v} {Q : Type w}

/-- Bucket of the ordered map: a precomputed truncated hash, a key and a value
(mirrors `struct Bucket<K, V>` in vec_map.rs). -/
structure Bucket (K : Type u) (V : Type v) where
  hash : Nat
  key : K
  value : V
  deriving DecidableEq, Repr

/-- Insertion-ordered map backed by a single contiguous bucket sequence
(mirrors `struct VecMap<K, V>` in vec_map.rs). -/
structure VecMap (K : Type u) (V : Type v) where
  buckets : List (Bucket K V)
  deriving DecidableEq, Repr

/-- Owned hash handle: a key bundled with its precomputed truncated hash
(mirrors `Hashed<K>` from collections/hash.rs, used by the insert path). -/
structure Hashed (K : Type u) where
  hash : Nat
  key : K
  deriving DecidableEq, Repr

/-- Borrowed hash handle used on the lookup/removal paths
(mirrors `BorrowHashed<Q>` from collections/hash.rs). -/
structure BorrowHashed (Q : Type w) where
  hash : Nat
  key : Q
  deriving DecidableEq, Repr

/-- The scan condition shared by `get_full` and `remove_hashed_entry`:
stored hash compared first, then the equivalence relation
(`b.hash == key.hash() && key.key().equivalent(&b.key)`). -/
def bmatch (e : Q → K → Bool) (q : BorrowHashed Q) (b : Bucket K V) : Bool :=
  b.hash == q.hash && e q.key b.key

/-- Loop body of `VecMap::get_full`: a linear forward scan carrying the
explicit counter `i`, returning the first bucket that matches. -/
def getFullGo (e : Q → K → Bool) (q : BorrowHashed Q) :
    Nat → List (Bucket K V) → Option (Nat × K × V)
  | _, [] => none
  | i, b :: bs =>
    if bmatch e q b then some (i, b.key, b.value) else getFullGo e q (i + 1) bs

/-- Embeds `VecMap::get_full`: linear scan from index 0 over the buckets. -/
def VecMap.get_full (e : Q → K → Bool) (m : VecMap K V) (q : BorrowHashed Q) :
    Option (Nat × K × V) :=
  getFullGo e q 0 m.buckets

/-- Embeds `VecMap::get_index_of_hashed`: the index part of `get_full`. -/
def VecMap.get_index_of_hashed (e : Q → K → Bool) (m : VecMap K V) (q : BorrowHashed Q) :
    Option Nat :=
  (m.get_full e q).map (fun t => t.1)

/-- Embeds `VecMap::get_index`: checked positional access via `Vec::get`. -/
def VecMap.get_index (m : VecMap K V) (index : Nat) : Option (K × V) :=
  (m.buckets.get? index).map (fun b => (b.key, b.value))

/-- Embeds `VecMap::insert_unique_unchecked`: unconditionally pushes a bucket
built from the hash handle and the value onto the end of the sequence. -/
def VecMap.insert_unique_unchecked (m : VecMap K V) (key : Hashed K) (value : V) :
    VecMap K V :=
  ⟨m.buckets ++ [⟨key.hash, key.key, value⟩]⟩

/-- Loop of `VecMap::remove_hashed_entry`: finds the first matching bucket,
removes it (later buckets shift down one position, as `Vec::remove` does) and
returns its key/value pair together with the remaining sequence. The empty
list yields `none`, matching the early `len == 0` return. -/
def removeGo (e : Q → K → Bool) (q : BorrowHashed Q) :
    List (Bucket K V) → Option ((K × V) × List (Bucket K V))
  | [] => none
  | b :: bs =>
    if bmatch e q b then some ((b.key, b.value), bs)
    else
      match removeGo e q bs with
      | none => none
      | some (kv, rest) => some (kv, b :: rest)

/-- Embeds `VecMap::remove_hashed_entry`; the pair returns both the Rust
return value and the mutated map. -/
def VecMap.remove_hashed_entry (e : Q → K → Bool) (m : VecMap K V) (q : BorrowHashed Q) :
    Option (K × V) × VecMap K V :=
  match removeGo e q m.buckets with
  | none => (none, m)
  | some (kv, rest) => (some kv, ⟨rest⟩)

/-- Embeds `VecMap::len`. -/
def VecMap.len (m : VecMap K V) : Nat :=
  m.buckets.length

/-- Embeds `VecMap::is_empty`. -/
def VecMap.is_empty (m : VecMap K V) : Bool :=
  m.buckets.isEmpty

/-- Embeds the `keys()` iterator (`VMKeys`): each bucket projected to its key,
in storage order. -/
def VecMap.keys (m : VecMap K V) : List K :=
  m.buckets.map (fun b => b.key)

/-- Embeds the `values()` iterator (`VMValues`): each bucket projected to its
value, in storage order. -/
def VecMap.values (m : VecMap K V) : List V :=
  m.buckets.map (fun b => b.value)

/-- Embeds the `iter()` iterator (`VMIter`): each bucket projected to its
key/value pair, in storage order. -/
def VecMap.iter (m : VecMap K V) : List (K × V) :=
  m.buckets.map (fun b => (b.key, b.value))

/-- The empty map (`VecMap::default` / `with_capacity`, contents-wise). -/
def VecMap.empty : VecMap K V :=
  ⟨[]⟩

/-- A sequence of `insert_unique_unchecked` calls, one per pair in the list. -/
def insertAll (ins : List (Hashed K × V)) (m : VecMap K V) : VecMap K V :=
  ins.foldl (fun m p => m.insert_unique_unchecked p.1 p.2) m

/-- A sequence of `remove_hashed_entry` calls, one per handle in the list,
keeping only the map (the Rust return values are dropped). -/
def removeAll (e : Q → K → Bool) (rs : List (BorrowHashed Q)) (m : VecMap K V) : VecMap K V :=
  rs.foldl (fun m q => (m.remove_hashed_entry e q).2) m

/-- The bucket an insert call builds from its arguments. -/
def bucketOf (p : Hashed K × V) : Bucket K V :=
  ⟨p.1.hash, p.1.key, p.2⟩

/-- A bucket survives a removal sequence when no removal handle matches it. -/
def survives (e : Q → K → Bool) (rs : List (BorrowHashed Q)) (b : Bucket K V) : Bool :=
  rs.all (fun q => !(bmatch e q b))

/-- C10: the checked accessor `get_index` is total: it returns the i-th
key/value pair of insertion-order iteration, so it is `some` exactly when the
index is below `len()` and `none` otherwise; being a pure function of the map
it leaves the map unchanged. -/
theorem getIndex_total (m : VecMap K V) (i : Nat) :
    m.get_index i = m.iter.get? i ∧ ((m.get_index i).isSome ↔ i < m.len) := by
  constructor
  · simp [VecMap.get_index, VecMap.iter, List.get?_eq_getElem?, List.getElem?_map]
  · simp only [VecMap.get_index, VecMap.len, List.get?_eq_getElem?]
    constructor
    · intro h
      by_contra hlt
      push_neg at hlt
      rw [List.getElem?_eq_none hlt] at h
      simp at h
    · intro h
      rw [List.getElem?_eq_getElem h]
      simp

theorem getFullGo_none_iff (e : Q → K → Bool) (q : BorrowHashed Q) (i : Nat)
    (l : List (Bucket K V)) :
    getFullGo e q i l = none ↔ ∀ b ∈ l, bmatch e q b = false := by
  induction l generalizing i with
  | nil => simp [getFullGo]
  | cons b bs ih =>
    by_cases hb : bmatch e q b = true
    · simp [getFullGo, hb]
    · simp only [Bool.not_eq_true] at hb
      simp [getFullGo, hb, ih]

theorem getFullGo_some (e : Q → K → Bool) (q : BorrowHashed Q) (i : Nat)
    (l : List (Bucket K V)) (j : Nat) (k : K) (v : V)
    (hres : getFullGo e q i l = some (j, k, v)) :
    ∃ d b, j = i + d ∧ l[d]? = some b ∧ b.key = k ∧ b.value = v ∧ bmatch e q b = true ∧
      ∀ d' b', d' < d → l[d']? = some b' → bmatch e q b' = false := by
  induction l generalizing i with
  | nil => simp [getFullGo] at hres
  | cons b bs ih =>
    by_cases hb : bmatch e q b = true
    · rw [getFullGo, if_pos hb] at hres
      obtain ⟨hi, hk, hv⟩ : i = j ∧ b.key = k ∧ b.value = v := by
        simpa using hres
      refine ⟨0, b, by omega, by simp, hk, hv, hb, ?_⟩
      intro d' b' hd'
      omega
    · simp only [getFullGo, hb, if_false, Bool.not_eq_true] at hres
      obtain ⟨d, b0, hj, hget, hk, hv, hm, hprev⟩ := ih (i + 1) hres
      simp only [Bool.not_eq_true] at hb
      refine ⟨d + 1, b0, by omega, by simpa using hget, hk, hv, hm, ?_⟩
      intro d' b' hd' hget'
      match d' with
      | 0 =>
        simp only [List.getElem?_cons_zero, Option.some.injEq] at hget'
        exact hget' ▸ hb
      | d'' + 1 =>
        simp only [List.getElem?_cons_succ] at hget'
        exact hprev d'' b' (by omega) hget'

/-- C2: `get_full` returns `some (i, k, v)` only when bucket `i` is the first
bucket in storage order whose stored hash equals the handle's hash and whose
key is equivalent to the handle's key, with `k` and `v` that bucket's key and
value; it returns `none` exactly when no bucket matches; and whenever it
returns a bucket, the returned key is equivalent to the query key — so under
a forced hash collision between non-equivalent keys it never returns the
other key's bucket. -/
theorem getFull_spec (e : Q → K → Bool) (m : VecMap K V) (q : BorrowHashed Q) :
    (∀ i k v, m.get_full e q = some (i, k, v) →
      ∃ b, m.buckets[i]? = some b ∧ b.key = k ∧ b.value = v ∧ bmatch e q b = true ∧
        ∀ j b', j < i → m.buckets[j]? = some b' → bmatch e q b' = false)
    ∧ (m.get_full e q = none ↔ ∀ b ∈ m.buckets, bmatch e q b = false)
    ∧ (∀ i k v, m.get_full e q = some (i, k, v) → e q.key k = true) := by
  refine ⟨?_, ?_, ?_⟩
  · intro i k v hres
    obtain ⟨d, b, hd, hget, hk, hv, hm, hprev⟩ := getFullGo_some e q 0 m.buckets i k v hres
    have : i = d := by omega
    subst this
    exact ⟨b, hget, hk, hv, hm, hprev⟩
  · exact getFullGo_none_iff e q 0 m.buckets
  · intro i k v hres
    obtain ⟨d, b, hd, hget, hk, hv, hm, hprev⟩ := getFullGo_some e q 0 m.buckets i k v hres
    have := hm
    simp only [bmatch, Bool.and_eq_true, beq_iff_eq] at this
    exact hk ▸ this.2

/-- Witness for C2: on a two-bucket map whose buckets share the hash 5, the
query for key 11 returns the second bucket, whose key is equivalent to the
query key. -/
theorem getFull_spec_witness :
    VecMap.get_full (fun a b : Nat => a == b)
        ⟨[⟨5, 10, 100⟩, ⟨5, 11, 200⟩]⟩ ⟨5, 11⟩ = some (1, 11, 200)
    ∧ (fun a b : Nat => a == b) (11 : Nat) 11 = true := by
  refine ⟨by decide, ?_⟩
  exact (getFull_spec (fun a b : Nat => a == b)
    ⟨[⟨5, 10, 100⟩, ⟨5, 11, 200⟩]⟩ ⟨5, 11⟩).2.2 1 11 200 (by decide)

theorem removeGo_none_iff (e : Q → K → Bool) (q : BorrowHashed Q) (l : List (Bucket K V)) :
    removeGo e q l = none ↔ ∀ b ∈ l, bmatch e q b = false := by
  induction l with
  | nil => simp [removeGo]
  | cons b bs ih =>
    by_cases hb : bmatch e q b = true
    · simp [removeGo, hb]
    · simp only [Bool.not_eq_true] at hb
      rw [removeGo, if_neg (by simp [hb])]
      cases hr : removeGo e q bs with
      | none =>
        simp only [List.mem_cons]
        constructor
        · intro _ b' hb'
          rcases hb' with h1 | h2
          · exact h1 ▸ hb
          · exact ih.mp hr b' h2
        · intro _
          trivial
      | some p =>
        obtain ⟨kv0, rest0⟩ := p
        simp only [List.mem_cons]
        constructor
        · intro h
          cases h
        · intro h
          have hn : removeGo e q bs = none := ih.mpr (fun b' hb' => h b' (Or.inr hb'))
          rw [hn] at hr
          cases hr

theorem removeGo_some (e : Q → K → Bool) (q : BorrowHashed Q) (l : List (Bucket K V))
    (kv : K × V) (rest : List (Bucket K V))
    (hres : removeGo e q l = some (kv, rest)) :
    ∃ i b, l[i]? = some b ∧ kv = (b.key, b.value) ∧ bmatch e q b = true ∧
      (∀ j b', j < i → l[j]? = some b' → bmatch e q b' = false) ∧
      rest = l.take i ++ l.drop (i + 1) := by
  induction l generalizing kv rest with
  | nil => simp [removeGo] at hres
  | cons b bs ih =>
    by_cases hb : bmatch e q b = true
    · rw [removeGo, if_pos hb] at hres
      obtain ⟨hkv, hrest⟩ : (b.key, b.value) = kv ∧ bs = rest := by simpa using hres
      exact ⟨0, b, by simp, hkv.symm, hb, by intro j b' hj; omega, by simp [← hrest]⟩
    · rw [removeGo, if_neg hb] at hres
      simp only [Bool.not_eq_true] at hb
      cases hr : removeGo e q bs with
      | none => rw [hr] at hres; cases hres
      | some p =>
        obtain ⟨kv0, rest0⟩ := p
        rw [hr] at hres
        obtain ⟨hkv, hrest⟩ : kv0 = kv ∧ b :: rest0 = rest := by simpa using hres
        obtain ⟨i, b0, hget, hkv0, hm0, hprev, hr0⟩ := ih kv0 rest0 hr
        refine ⟨i + 1, b0, by simpa using hget, hkv.symm.trans hkv0, hm0, ?_, ?_⟩
        · intro j b' hj hget'
          match j with
          | 0 =>
            simp only [List.getElem?_cons_zero, Option.some.injEq] at hget'
            exact hget' ▸ hb
          | j' + 1 =>
            simp only [List.getElem?_cons_succ] at hget'
            exact hprev j' b' (by omega) hget'
        · rw [← hrest, hr0]
          simp [List.take_succ_cons, List.drop_succ_cons]

theorem removeGo_agrees_getFullGo (e : Q → K → Bool) (q : BorrowHashed Q)
    (l : List (Bucket K V)) (i : Nat) :
    (removeGo e q l).map (fun p => p.1) = (getFullGo e q i l).map (fun t => (t.2.1, t.2.2)) := by
  induction l generalizing i with
  | nil => simp [removeGo, getFullGo]
  | cons b bs ih =>
    by_cases hb : bmatch e q b = true
    · simp [removeGo, getFullGo, hb]
    · rw [removeGo, if_neg hb, getFullGo, if_neg hb]
      cases hr : removeGo e q bs with
      | none => simpa [hr] using ih (i + 1)
      | some p =>
        obtain ⟨kv0, rest0⟩ := p
        have hih := ih (i + 1)
        rw [hr] at hih
        rw [← hih]
        simp

/-- C7: `remove_hashed_entry` returns `none` and leaves the map unchanged
exactly when no bucket matches the handle (in particular on the empty map);
otherwise it returns the key/value pair of the first matching bucket in
storage order and deletes exactly that bucket, keeping all other buckets in
their relative order; and the entry it removes is the same entry `get_full`
returns, so both act on the first match. -/
theorem remove_spec (e : Q → K → Bool) (m : VecMap K V) (q : BorrowHashed Q) :
    ((m.remove_hashed_entry e q).1 = none ↔ ∀ b ∈ m.buckets, bmatch e q b = false)
    ∧ ((m.remove_hashed_entry e q).1 = none → (m.remove_hashed_entry e q).2 = m)
    ∧ (∀ k v, (m.remove_hashed_entry e q).1 = some (k, v) →
        ∃ i b, m.buckets[i]? = some b ∧ b.key = k ∧ b.value = v ∧ bmatch e q b = true ∧
          (∀ j b', j < i → m.buckets[j]? = some b' → bmatch e q b' = false) ∧
          (m.remove_hashed_entry e q).2.buckets = m.buckets.take i ++ m.buckets.drop (i + 1))
    ∧ (m.remove_hashed_entry e q).1 = (m.get_full e q).map (fun t => (t.2.1, t.2.2)) := by
  refine ⟨?_, ?_, ?_, ?_⟩
  · rw [VecMap.remove_hashed_entry]
    cases hr : removeGo e q m.buckets with
    | none => simpa using (removeGo_none_iff e q m.buckets).mp hr
    | some p =>
      simp only
      constructor
      · intro h; cases h
      · intro h
        rw [(removeGo_none_iff e q m.buckets).mpr h] at hr
        cases hr
  · rw [VecMap.remove_hashed_entry]
    cases hr : removeGo e q m.buckets with
    | none => simp
    | some p => simp
  · intro k v hres
    rw [VecMap.remove_hashed_entry] at hres ⊢
    cases hr : removeGo e q m.buckets with
    | none => rw [hr] at hres; cases hres
    | some p =>
      rw [hr] at hres
      cases p with
      | mk kv rest =>
        obtain ⟨i, b, hget, hkv, hm0, hprev, hr0⟩ := removeGo_some e q m.buckets kv rest hr
        have hkv' : kv = (k, v) := by simpa using hres
        subst hkv'
        obtain ⟨hk, hv⟩ : b.key = k ∧ b.value = v := by
          have := hkv
          simp only [Prod.mk.injEq] at this
          exact ⟨this.1.symm, this.2.symm⟩
        exact ⟨i, b, hget, hk, hv, hm0, hprev, by simp [hr0]⟩
  · rw [VecMap.remove_hashed_entry, VecMap.get_full]
    rw [← removeGo_agrees_getFullGo e q m.buckets 0]
    cases hr : removeGo e q m.buckets with
    | none => simp
    | some p => simp

/-- Witness for C7: on a map with two buckets of equivalent keys (a caller
error), removal returns the first bucket's pair, leaves the second, and
agrees with what `get_full` finds there. -/
theorem remove_spec_witness :
    (VecMap.remove_hashed_entry (fun a b : Nat => a == b)
        ⟨[⟨7, 3, 30⟩, ⟨7, 3, 31⟩]⟩ ⟨7, 3⟩).1 = some (3, 30)
    ∧ (VecMap.remove_hashed_entry (fun a b : Nat => a == b)
        ⟨[⟨7, 3, 30⟩, ⟨7, 3, 31⟩]⟩ ⟨7, 3⟩).2.buckets = [⟨7, 3, 31⟩] := by
  have h := (remove_spec (fun a b : Nat => a == b)
    ⟨[⟨7, 3, 30⟩, ⟨7, 3, 31⟩]⟩ ⟨7, 3⟩).2.2.2
  refine ⟨by rw [h]; decide, by decide⟩

theorem getFullGo_append_last (e : K → K → Bool) (q : BorrowHashed K)
    (l : List (Bucket K V)) (b : Bucket K V)
    (hl : ∀ b' ∈ l, bmatch e q b' = false) (hb : bmatch e q b = true) :
    ∀ i, getFullGo e q i (l ++ [b]) = some (i + l.length, b.key, b.value) := by
  induction l with
  | nil =>
    intro i
    simp [getFullGo, hb]
  | cons b0 bs ih =>
    intro i
    have hb0 : bmatch e q b0 = false := hl b0 (by simp)
    rw [List.cons_append, getFullGo, if_neg (by simp [hb0])]
    have hstep := ih (fun b' hb' => hl b' (List.mem_cons_of_mem _ hb')) (i + 1)
    rw [hstep]
    have harith : i + 1 + bs.length = i + (b0 :: bs).length := by
      simp only [List.length_cons]
      omega
    rw [harith]

/-- C8: on a map with no bucket whose key is equivalent to `k`, inserting
`(k, v)` through `insert_unique_unchecked` and then looking `k` up with the
same hash handle through `get_full` finds the new entry at exactly the
position where it was appended, namely the map's length before the insert. -/
theorem insert_getFull_roundtrip (e : K → K → Bool) (m : VecMap K V)
    (h : Nat) (k : K) (v : V)
    (hrefl : e k k = true) (hfresh : ∀ b ∈ m.buckets, e k b.key = false) :
    (m.insert_unique_unchecked ⟨h, k⟩ v).get_full e ⟨h, k⟩ = some (m.len, k, v) := by
  rw [VecMap.get_full, VecMap.insert_unique_unchecked]
  have hb : bmatch e (⟨h, k⟩ : BorrowHashed K) (⟨h, k, v⟩ : Bucket K V) = true := by
    simp [bmatch, hrefl]
  have hl : ∀ b' ∈ m.buckets, bmatch e (⟨h, k⟩ : BorrowHashed K) b' = false := by
    intro b' hb'
    simp [bmatch, hfresh b' hb']
  rw [getFullGo_append_last e ⟨h, k⟩ m.buckets ⟨h, k, v⟩ hl hb 0]
  simp [VecMap.len]

/-- Witness for C8: inserting key 4 (hash 9, value 44) into a one-entry map
with a non-equivalent key finds the new entry at index 1, the length before
the insert. -/
theorem insert_getFull_roundtrip_witness :
    (VecMap.insert_unique_unchecked ⟨[⟨9, 2, 22⟩]⟩ ⟨9, 4⟩ 44).get_full
        (fun a b : Nat => a == b) ⟨9, 4⟩ = some (1, 4, 44) :=
  insert_getFull_roundtrip (fun a b : Nat => a == b) ⟨[⟨9, 2, 22⟩]⟩ 9 4 44
    (by decide) (by decide)

/-- The bucket sequence left behind by one `remove_hashed_entry` call. -/
def removeRes (e : Q → K → Bool) (q : BorrowHashed Q) (l : List (Bucket K V)) :
    List (Bucket K V) :=
  match removeGo e q l with
  | none => l
  | some (_, rest) => rest

theorem remove_snd_buckets (e : Q → K → Bool) (m : VecMap K V) (q : BorrowHashed Q) :
    ((m.remove_hashed_entry e q).2).buckets = removeRes e q m.buckets := by
  rw [VecMap.remove_hashed_entry, removeRes]
  cases removeGo e q m.buckets with
  | none => rfl
  | some p => cases p; rfl

theorem removeAll_cons (e : Q → K → Bool) (q : BorrowHashed Q)
    (rs : List (BorrowHashed Q)) (m : VecMap K V) :
    removeAll e (q :: rs) m = removeAll e rs (m.remove_hashed_entry e q).2 := rfl

theorem insertAll_cons (p : Hashed K × V) (ps : List (Hashed K × V)) (m : VecMap K V) :
    insertAll (p :: ps) m = insertAll ps (m.insert_unique_unchecked p.1 p.2) := rfl

theorem removeRes_eq_filter (e : K → K → Bool)
    (hsym : ∀ a b, e a b = true → e b a = true)
    (htrans : ∀ a b c, e a b = true → e b c = true → e a c = true)
    (q : BorrowHashed K) (l : List (Bucket K V))
    (hpw : l.Pairwise (fun b b' => e b.key b'.key = false)) :
    removeRes e q l = l.filter (fun b => !(bmatch e q b)) := by
  induction l with
  | nil => rfl
  | cons b bs ih =>
    rcases List.pairwise_cons.mp hpw with ⟨hhead, htail⟩
    by_cases hb : bmatch e q b = true
    · have hgo : removeGo e q (b :: bs) = some ((b.key, b.value), bs) := by
        rw [removeGo, if_pos hb]
      simp only [removeRes, hgo]
      have hq : e q.key b.key = true := by
        have hb' := hb
        simp only [bmatch, Bool.and_eq_true] at hb'
        exact hb'.2
      have hnone : ∀ b' ∈ bs, bmatch e q b' = false := by
        intro b' hb'
        by_contra hc
        simp only [Bool.not_eq_false] at hc
        have hq' : e q.key b'.key = true := by
          simp only [bmatch, Bool.and_eq_true] at hc
          exact hc.2
        have hbb : e b.key b'.key = true := htrans _ _ _ (hsym _ _ hq) hq'
        rw [hhead b' hb'] at hbb
        cases hbb
      rw [List.filter_cons_of_neg (by simp [hb])]
      symm
      rw [List.filter_eq_self]
      intro b' hb'
      simp [hnone b' hb']
    · simp only [Bool.not_eq_true] at hb
      have hgoc : removeGo e q (b :: bs)
          = match removeGo e q bs with
            | none => none
            | some (kv, rest) => some (kv, b :: rest) := by
        rw [removeGo, if_neg (by simp [hb])]
      cases hr : removeGo e q bs with
      | none =>
        have hre : removeRes e q (b :: bs) = b :: bs := by
          simp only [removeRes, hgoc, hr]
        rw [hre, List.filter_cons_of_pos (by simp [hb]), ← ih htail]
        simp only [removeRes, hr]
      | some p =>
        obtain ⟨kv, rest⟩ := p
        have hre : removeRes e q (b :: bs) = b :: rest := by
          simp only [removeRes, hgoc, hr]
        rw [hre, List.filter_cons_of_pos (by simp [hb]), ← ih htail]
        simp only [removeRes, hr]

theorem removeAll_buckets (e : K → K → Bool)
    (hsym : ∀ a b, e a b = true → e b a = true)
    (htrans : ∀ a b c, e a b = true → e b c = true → e a c = true) :
    ∀ (rs : List (BorrowHashed K)) (l : List (Bucket K V)),
      l.Pairwise (fun b b' => e b.key b'.key = false) →
      (removeAll e rs (⟨l⟩ : VecMap K V)).buckets = l.filter (survives e rs) := by
  intro rs
  induction rs with
  | nil =>
    intro l hpw
    show l = l.filter (survives e [])
    symm
    rw [List.filter_eq_self]
    intro b hb
    simp [survives]
  | cons q rs ih =>
    intro l hpw
    have hstep : (VecMap.remove_hashed_entry e (⟨l⟩ : VecMap K V) q).2
        = ⟨removeRes e q l⟩ := by
      rw [← remove_snd_buckets e ⟨l⟩ q]
    have hfil := removeRes_eq_filter e hsym htrans q l hpw
    have hpw' : (removeRes e q l).Pairwise (fun b b' => e b.key b'.key = false) := by
      rw [hfil]
      exact hpw.sublist (List.filter_sublist l)
    rw [removeAll_cons, hstep, ih (removeRes e q l) hpw', hfil, List.filter_filter]
    congr 1
    funext b
    simp [survives, Bool.and_comm]

theorem insertAll_buckets (ins : List (Hashed K × V)) :
    ∀ m : VecMap K V, (insertAll ins m).buckets = m.buckets ++ ins.map bucketOf := by
  induction ins with
  | nil =>
    intro m
    simp [insertAll]
  | cons p ps ih =>
    intro m
    rw [insertAll_cons, ih]
    simp [VecMap.insert_unique_unchecked, bucketOf]

/-- C1: after any sequence of `insert_unique_unchecked` calls with pairwise
non-equivalent keys followed by any sequence of `remove_hashed_entry` calls,
the `iter()`, `keys()` and `values()` iterators each yield exactly the
projections of the surviving buckets — the inserted entries no removal handle
matched — in their original relative insertion order. The equivalence
relation is assumed symmetric and transitive, as the container requires of
its key relation. -/
theorem order_preservation (e : K → K → Bool)
    (hsym : ∀ a b, e a b = true → e b a = true)
    (htrans : ∀ a b c, e a b = true → e b c = true → e a c = true)
    (ins : List (Hashed K × V))
    (hpw : ins.Pairwise (fun p p' => e p.1.key p'.1.key = false))
    (rs : List (BorrowHashed K)) :
    (removeAll e rs (insertAll ins VecMap.empty)).iter
        = ((ins.map bucketOf).filter (survives e rs)).map (fun b => (b.key, b.value))
    ∧ (removeAll e rs (insertAll ins VecMap.empty)).keys
        = ((ins.map bucketOf).filter (survives e rs)).map (fun b => b.key)
    ∧ (removeAll e rs (insertAll ins VecMap.empty)).values
        = ((ins.map bucketOf).filter (survives e rs)).map (fun b => b.value) := by
  have hins : insertAll ins (VecMap.empty : VecMap K V) = ⟨ins.map bucketOf⟩ := by
    have hb := insertAll_buckets ins (VecMap.empty : VecMap K V)
    simp only [VecMap.empty, List.nil_append] at hb
    rw [← hb]
    rfl
  have hpwb : (ins.map bucketOf).Pairwise (fun b b' => e b.key b'.key = false) := by
    rw [List.pairwise_map]
    exact hpw
  have hall : (removeAll e rs (insertAll ins (VecMap.empty : VecMap K V))).buckets
      = (ins.map bucketOf).filter (survives e rs) := by
    rw [hins]
    exact removeAll_buckets e hsym htrans rs (ins.map bucketOf) hpwb
  refine ⟨?_, ?_, ?_⟩ <;>
    simp [VecMap.iter, VecMap.keys, VecMap.values, hall]

/-- Witness for C1: inserting keys 0, 1, 2 (values 10, 20, 30) and removing
key 1 leaves the pairs (0, 10) and (2, 30) in insertion order. -/
theorem order_preservation_witness :
    (removeAll (fun a b : Fin 3 => a == b) [⟨1, 1⟩]
        (insertAll [(⟨0, 0⟩, 10), (⟨1, 1⟩, 20), (⟨2, 2⟩, 30)] VecMap.empty)).iter
      = [((0 : Fin 3), (10 : Nat)), ((2 : Fin 3), (30 : Nat))] := by
  have h := (order_preservation (fun a b : Fin 3 => a == b) (by decide) (by decide)
    [(⟨0, 0⟩, 10), (⟨1, 1⟩, 20), (⟨2, 2⟩, 30)] (by decide) [⟨1, 1⟩]).1
  rw [h]
  decide

namespace AValue

/-- Zero-sized mode tag for inherently simple payloads (`struct Simple`). -/
structure Simple where

/-- Zero-sized mode tag for possibly complex payloads (`struct Complex`). -/
structure Complex where

/-- The single generic envelope `struct Wrapper<Mode, T>(Mode, T)` of
avalue.rs: a mode tag plus the concrete payload. -/
structure Wrapper (M : Type) (T : Type) where
  tag : M
  payload : T

/-- Dispatch data of gazebo's `AnyLifetime` trait as used by avalue.rs: the
type identifier a type reports statically (`static_type_id`) and the
identifier a value reports dynamically (`static_type_of`); `TypeId` is
modelled as `Nat`. -/
structure AnyLifetime (T : Type) where
  static_type_id : Nat
  static_type_of : T → Nat

/-- Embeds `unsafe impl AnyLifetime<'v> for Wrapper<Mode, T>` of avalue.rs:
the wrapper's static identity is the payload type's identity
(`T::static_type_id()`), and a wrapped value's dynamic identity is
`Self::static_type_id()`, i.e. again the payload type's identity. -/
def wrapperAnyLifetime (M : Type) {T : Type} (instT : AnyLifetime T) :
    AnyLifetime (Wrapper M T) where
  static_type_id := instT.static_type_id
  static_type_of := fun _ => instT.static_type_id

/-- Modelled from the spec: the downcast query of the `AnyLifetime`
machinery, which lives in the external gazebo crate. Per the spec, a
downcast query compares the value's reported dynamic type identity against
the target type's identity and succeeds exactly on equality; because
`Wrapper` is `repr(C)` with a zero-sized mode tag ("layout Wrapper such that
it is really a T underneath"), a successful downcast reinterprets the wrapped
value as the payload itself. -/
def downcastWrapper {M T : Type} (instT : AnyLifetime T) (target_id : Nat)
    (w : Wrapper M T) : Option T :=
  if (wrapperAnyLifetime M instT).static_type_of w = target_id then some w.payload
  else none

/-- C3: under both mode tags the wrapper reports exactly the payload type's
identity, both statically and on a wrapped value, so a downcast against the
payload type's identity succeeds and yields the original payload, while a
downcast against any different identity fails. -/
theorem type_identity_transparency {T : Type} (instT : AnyLifetime T)
    (ws : Wrapper Simple T) (wc : Wrapper Complex T) (other_id : Nat)
    (hother : ¬ other_id = instT.static_type_id) :
    ((wrapperAnyLifetime Simple instT).static_type_id = instT.static_type_id
      ∧ (wrapperAnyLifetime Simple instT).static_type_of ws = instT.static_type_id
      ∧ downcastWrapper instT instT.static_type_id ws = some ws.payload
      ∧ downcastWrapper instT other_id ws = none)
    ∧ ((wrapperAnyLifetime Complex instT).static_type_id = instT.static_type_id
      ∧ (wrapperAnyLifetime Complex instT).static_type_of wc = instT.static_type_id
      ∧ downcastWrapper instT instT.static_type_id wc = some wc.payload
      ∧ downcastWrapper instT other_id wc = none) := by
  have hne : instT.static_type_id ≠ other_id := fun h => hother h.symm
  refine ⟨⟨rfl, rfl, ?_, ?_⟩, rfl, rfl, ?_, ?_⟩ <;>
    simp [downcastWrapper, wrapperAnyLifetime, hne]

/-- Witness for C3: a payload type with identity 3 wrapped in either mode
downcasts to itself at target 3 and fails at target 4. -/
theorem type_identity_transparency_witness :
    downcastWrapper (⟨3, fun _ => 3⟩ : AnyLifetime Nat) 3
        (⟨⟨⟩, 42⟩ : Wrapper Simple Nat) = some 42
    ∧ downcastWrapper (⟨3, fun _ => 3⟩ : AnyLifetime Nat) 4
        (⟨⟨⟩, 42⟩ : Wrapper Complex Nat) = none := by
  have h := type_identity_transparency (⟨3, fun _ => 3⟩ : AnyLifetime Nat)
    ⟨⟨⟩, 42⟩ ⟨⟨⟩, 42⟩ 4 (by decide)
  exact ⟨h.1.2.2.1, h.2.2.2.2⟩

/-- Modelled from the spec: the payload registration contract of a "possibly
complex" value type (the `ComplexValue` trait, declared outside the given
sources): a trace routine that may rewrite the payload while updating the
tracer's state, and a freeze routine that consumes the payload and either
fails or yields the frozen payload while updating the freezer's state. The
interior effects of `&Tracer` / `&Freezer` are made explicit state passing:
`Tr` is tracer state, `F` freezer state, `E` the error type, `T` the payload
type and `U` its frozen counterpart. -/
structure ComplexValue (Tr F E T U : Type) where
  trace : T → Tr → T × Tr
  freeze : T → F → Except E U × F

/-- Embeds `AValue::trace` for `Wrapper<Simple, T>`: the body is empty
("Nothing to do"), so value and tracer come back untouched. -/
def traceSimple {Tr T : Type} (w : Wrapper Simple T) (tracer : Tr) :
    Wrapper Simple T × Tr :=
  (w, tracer)

/-- Embeds `AValue::trace` for `Wrapper<Complex, T>`: `self.1.trace(tracer)`,
the payload's own trace applied to the payload component, tag untouched. -/
def traceComplex {Tr F E T U : Type} (cv : ComplexValue Tr F E T U)
    (w : Wrapper Complex T) (tracer : Tr) : Wrapper Complex T × Tr :=
  let r := cv.trace w.payload tracer
  (⟨w.tag, r.1⟩, r.2)

/-- Embeds `AValue::into_simple` for `Wrapper<Simple, T>`: `Ok(self)` — the
freezer argument is unused. -/
def intoSimpleSimple {F E T : Type} (w : Wrapper Simple T) (freezer : F) :
    Except E (Wrapper Simple T) × F :=
  (Except.ok w, freezer)

/-- Embeds `AValue::into_simple` for `Wrapper<Complex, T>`:
`let x: Box<T> = coerce(self); let res = x.freeze(freezer)?;
Ok(box simple(res))` — one call of the payload's freeze routine, `?`
propagation of its error, and on success the output wrapped with the
`Simple` tag (`simple(res)` is `Wrapper(Simple, res)`). -/
def intoSimpleComplex {Tr F E T U : Type} (cv : ComplexValue Tr F E T U)
    (w : Wrapper Complex T) (freezer : F) : Except E (Wrapper Simple U) × F :=
  match cv.freeze w.payload freezer with
  | (Except.ok res, f2) => (Except.ok ⟨⟨⟩, res⟩, f2)
  | (Except.error err, f2) => (Except.error err, f2)

/-- Instruments a payload's routines with call counters: the tracer state
gains a counter bumped on every trace call and the freezer state one bumped
on every freeze call; used to state "the routine runs exactly once". -/
def countCalls {Tr F E T U : Type} (cv : ComplexValue Tr F E T U) :
    ComplexValue (Nat × Tr) (Nat × F) E T U where
  trace := fun t ntr =>
    let r := cv.trace t ntr.2
    (r.1, (ntr.1 + 1, r.2))
  freeze := fun t nf =>
    let r := cv.freeze t nf.2
    (r.1, (nf.1 + 1, r.2))

/-- C4: `into_simple` on a Complex-wrapped payload fails with exactly the
payload freeze routine's error when that routine fails; on success it
returns the freeze output wrapped with the Simple tag, with the freezer
state the freeze call produced; and under call-counting instrumentation
every run bumps the freeze counter by exactly one, so the payload's freeze
routine is invoked exactly once. -/
theorem intoSimple_complex_spec {Tr F E T U : Type} (cv : ComplexValue Tr F E T U)
    (w : Wrapper Complex T) (freezer : F) :
    (∀ err f2, cv.freeze w.payload freezer = (Except.error err, f2) →
      intoSimpleComplex cv w freezer = (Except.error err, f2))
    ∧ (∀ res f2, cv.freeze w.payload freezer = (Except.ok res, f2) →
      intoSimpleComplex cv w freezer = (Except.ok ⟨⟨⟩, res⟩, f2))
    ∧ (∀ n, (intoSimpleComplex (countCalls cv) w (n, freezer)).2.1 = n + 1) := by
  refine ⟨?_, ?_, ?_⟩
  · intro err f2 h
    simp [intoSimpleComplex, h]
  · intro res f2 h
    simp [intoSimpleComplex, h]
  · intro n
    rcases hr : cv.freeze w.payload freezer with ⟨r, f2⟩
    cases r with
    | ok res => simp [intoSimpleComplex, countCalls, hr]
    | error err => simp [intoSimpleComplex, countCalls, hr]

/-- Witness for C4: a payload whose freeze routine succeeds with payload + 1
while bumping freezer state by 10 is frozen to a Simple-wrapped 6. -/
theorem intoSimple_complex_spec_witness :
    intoSimpleComplex
        (⟨fun t tr => (t, tr), fun t f => (Except.ok (t + 1), f + 10)⟩ :
          ComplexValue Nat Nat Nat Nat Nat)
        (⟨⟨⟩, 5⟩ : Wrapper Complex Nat) 0
      = (Except.ok (⟨⟨⟩, 6⟩ : Wrapper Simple Nat), 10) :=
  (intoSimple_complex_spec
    (⟨fun t tr => (t, tr), fun t f => (Except.ok (t + 1), f + 10)⟩ :
      ComplexValue Nat Nat Nat Nat Nat)
    (⟨⟨⟩, 5⟩ : Wrapper Complex Nat) 0).2.1 6 10 rfl

/-- C5: `into_simple` on a Simple-wrapped payload returns exactly the value
it was given with the freezer state untouched and the result marked ok, for
every error type — freezing an already-frozen value is the identity; since
the freezer state (which any instrumentation of payload routines would have
threaded) is returned unchanged and the definition never consults the
payload's routines, no trace or freeze side effect can have run. -/
theorem intoSimple_simple_spec {F E T : Type} (w : Wrapper Simple T) (freezer : F) :
    @intoSimpleSimple F E T w freezer = (Except.ok w, freezer) := rfl

/-- C9: trace on a Simple-wrapped value returns the value and the tracer
state exactly as given — no visitation, no mutation; trace on a Complex-
wrapped value applies exactly the payload's own trace routine to the payload
with the given tracer; and under call-counting instrumentation the Complex
case bumps the trace counter by exactly one. -/
theorem trace_spec {Tr F E T U : Type} (cv : ComplexValue Tr F E T U)
    (ws : Wrapper Simple T) (wc : Wrapper Complex T) (tracer : Tr) (n : Nat) :
    traceSimple ws tracer = (ws, tracer)
    ∧ traceComplex cv wc tracer
        = (⟨wc.tag, (cv.trace wc.payload tracer).1⟩, (cv.trace wc.payload tracer).2)
    ∧ (traceComplex (countCalls cv) wc (n, tracer)).2.1 = n + 1 :=
  ⟨rfl, rfl, rfl⟩

/-- Modelled from the spec: the capability interface `StarlarkValue<'v>`
(declared outside the given sources) as a record with one field per method,
the method list taken from the spec's enumeration and from the forwarding
`impl StarlarkValue for Wrapper<Mode, T>` block of avalue.rs. Rust types are
modelled as parameters: `Value<'v>` as `Vl`, `&Heap` as `Hp`,
`&mut Evaluator` as explicit state `Ev`, `Parameters` as `Pr`, `Span` as
`Sp`, `&'static Globals` as `Gl`, `anyhow::Error` as `Er`,
`&'static ConstFrozenValue` as `String`, the `&mut String` repr collector as
state passing, `Box<dyn Iterator>` as a list. The record declares no default
for any field. -/
structure StarlarkValue (Vl Hp Ev Pr Sp Gl Er : Type) (T : Type) where
  get_type : T → String
  get_type_value : T → String
  matches_type : T → String → Bool
  get_methods : T → Option Gl
  collect_repr : T → String → String
  to_json : T → Except Er String
  to_bool : T → Bool
  to_int : T → Except Er Int
  get_hash : T → Except Er Nat
  equals : T → Vl → Except Er Bool
  compare : T → Vl → Except Er Ordering
  invoke : T → Vl → Option Sp → Pr → Ev → Except Er Vl × Ev
  at_ : T → Vl → Hp → Except Er Vl
  slice : T → Option Vl → Option Vl → Option Vl → Hp → Except Er Vl
  iterate : T → Hp → Except Er (List Vl)
  length : T → Except Er Int
  get_attr : T → String → Hp → Option Vl
  has_attr : T → String → Bool
  dir_attr : T → List String
  is_in : T → Vl → Except Er Bool
  plus : T → Hp → Except Er Vl
  minus : T → Hp → Except Er Vl
  radd : T → Vl → Hp → Option (Except Er Vl)
  add : T → Vl → Hp → Except Er Vl
  sub : T → Vl → Hp → Except Er Vl
  mul : T → Vl → Hp → Except Er Vl
  percent : T → Vl → Hp → Except Er Vl
  floor_div : T → Vl → Hp → Except Er Vl
  bit_and : T → Vl → Except Er Vl
  bit_or : T → Vl → Except Er Vl
  bit_xor : T → Vl → Except Er Vl
  left_shift : T → Vl → Except Er Vl
  right_shift : T → Vl → Except Er Vl
  export_as : T → String → Ev → Ev
  set_at : T → Vl → Vl → Except Er Unit
  set_attr : T → String → Vl → Except Er Unit

/-- Embeds `impl<'v, Mode, T: StarlarkValue<'v>> StarlarkValue<'v> for
Wrapper<Mode, T>` of avalue.rs: every capability method is explicitly
defined and forwards unchanged to the payload (`self.1`); no method is left
to a default. -/
def wrapperStarlarkValue {Vl Hp Ev Pr Sp Gl Er T : Type} (M : Type)
    (sv : StarlarkValue Vl Hp Ev Pr Sp Gl Er T) :
    StarlarkValue Vl Hp Ev Pr Sp Gl Er (Wrapper M T) where
  get_type := fun w => sv.get_type w.payload
  get_type_value := fun w => sv.get_type_value w.payload
  matches_type := fun w ty => sv.matches_type w.payload ty
  get_methods := fun w => sv.get_methods w.payload
  collect_repr := fun w collector => sv.collect_repr w.payload collector
  to_json := fun w => sv.to_json w.payload
  to_bool := fun w => sv.to_bool w.payload
  to_int := fun w => sv.to_int w.payload
  get_hash := fun w => sv.get_hash w.payload
  equals := fun w other => sv.equals w.payload other
  compare := fun w other => sv.compare w.payload other
  invoke := fun w me location params eval2 => sv.invoke w.payload me location params eval2
  at_ := fun w index heap => sv.at_ w.payload index heap
  slice := fun w start stop stride heap => sv.slice w.payload start stop stride heap
  iterate := fun w heap => sv.iterate w.payload heap
  length := fun w => sv.length w.payload
  get_attr := fun w attr heap => sv.get_attr w.payload attr heap
  has_attr := fun w attr => sv.has_attr w.payload attr
  dir_attr := fun w => sv.dir_attr w.payload
  is_in := fun w other => sv.is_in w.payload other
  plus := fun w heap => sv.plus w.payload heap
  minus := fun w heap => sv.minus w.payload heap
  radd := fun w lhs heap => sv.radd w.payload lhs heap
  add := fun w rhs heap => sv.add w.payload rhs heap
  sub := fun w other heap => sv.sub w.payload other heap
  mul := fun w other heap => sv.mul w.payload other heap
  percent := fun w other heap => sv.percent w.payload other heap
  floor_div := fun w other heap => sv.floor_div w.payload other heap
  bit_and := fun w other => sv.bit_and w.payload other
  bit_or := fun w other => sv.bit_or w.payload other
  bit_xor := fun w other => sv.bit_xor w.payload other
  left_shift := fun w other => sv.left_shift w.payload other
  right_shift := fun w other => sv.right_shift w.payload other
  export_as := fun w var_name eval2 => sv.export_as w.payload var_name eval2
  set_at := fun w index new_value => sv.set_at w.payload index new_value
  set_attr := fun w attr new_value => sv.set_attr w.payload attr new_value

/-- C6: for either mode tag and every method of the capability interface,
calling the method on the wrapper with any arguments returns exactly what
the same method returns on the payload with the same arguments — the
forwarding is exhaustive over the interface record, which has no defaults,
so no method is left to a default by the wrapper; errors inside the
`Except` results pass through unchanged since the whole result is equal. -/
theorem wrapper_forwarding {Vl Hp Ev Pr Sp Gl Er T : Type} (M : Type)
    (sv : StarlarkValue Vl Hp Ev Pr Sp Gl Er T) (w : Wrapper M T)
    (s : String) (vl vl2 : Vl) (hp : Hp) (ev : Ev) (pr : Pr) (sp : Option Sp)
    (o1 o2 o3 : Option Vl) :
    (wrapperStarlarkValue M sv).get_type w = sv.get_type w.payload
    ∧ (wrapperStarlarkValue M sv).get_type_value w = sv.get_type_value w.payload
    ∧ (wrapperStarlarkValue M sv).matches_type w s = sv.matches_type w.payload s
    ∧ (wrapperStarlarkValue M sv).get_methods w = sv.get_methods w.payload
    ∧ (wrapperStarlarkValue M sv).collect_repr w s = sv.collect_repr w.payload s
    ∧ (wrapperStarlarkValue M sv).to_json w = sv.to_json w.payload
    ∧ (wrapperStarlarkValue M sv).to_bool w = sv.to_bool w.payload
    ∧ (wrapperStarlarkValue M sv).to_int w = sv.to_int w.payload
    ∧ (wrapperStarlarkValue M sv).get_hash w = sv.get_hash w.payload
    ∧ (wrapperStarlarkValue M sv).equals w vl = sv.equals w.payload vl
    ∧ (wrapperStarlarkValue M sv).compare w vl = sv.compare w.payload vl
    ∧ (wrapperStarlarkValue M sv).invoke w vl sp pr ev = sv.invoke w.payload vl sp pr ev
    ∧ (wrapperStarlarkValue M sv).at_ w vl hp = sv.at_ w.payload vl hp
    ∧ (wrapperStarlarkValue M sv).slice w o1 o2 o3 hp = sv.slice w.payload o1 o2 o3 hp
    ∧ (wrapperStarlarkValue M sv).iterate w hp = sv.iterate w.payload hp
    ∧ (wrapperStarlarkValue M sv).length w = sv.length w.payload
    ∧ (wrapperStarlarkValue M sv).get_attr w s hp = sv.get_attr w.payload s hp
    ∧ (wrapperStarlarkValue M sv).has_attr w s = sv.has_attr w.payload s
    ∧ (wrapperStarlarkValue M sv).dir_attr w = sv.dir_attr w.payload
    ∧ (wrapperStarlarkValue M sv).is_in w vl = sv.is_in w.payload vl
    ∧ (wrapperStarlarkValue M sv).plus w hp = sv.plus w.payload hp
    ∧ (wrapperStarlarkValue M sv).minus w hp = sv.minus w.payload hp
    ∧ (wrapperStarlarkValue M sv).radd w vl hp = sv.radd w.payload vl hp
    ∧ (wrapperStarlarkValue M sv).add w vl hp = sv.add w.payload vl hp
    ∧ (wrapperStarlarkValue M sv).sub w vl hp = sv.sub w.payload vl hp
    ∧ (wrapperStarlarkValue M sv).mul w vl hp = sv.mul w.payload vl hp
    ∧ (wrapperStarlarkValue M sv).percent w vl hp = sv.percent w.payload vl hp
    ∧ (wrapperStarlarkValue M sv).floor_div w vl hp = sv.floor_div w.payload vl hp
    ∧ (wrapperStarlarkValue M sv).bit_and w vl = sv.bit_and w.payload vl
    ∧ (wrapperStarlarkValue M sv).bit_or w vl = sv.bit_or w.payload vl
    ∧ (wrapperStarlarkValue M sv).bit_xor w vl = sv.bit_xor w.payload vl
    ∧ (wrapperStarlarkValue M sv).left_shift w vl = sv.left_shift w.payload vl
    ∧ (wrapperStarlarkValue M sv).right_shift w vl = sv.right_shift w.payload vl
    ∧ (wrapperStarlarkValue M sv).export_as w s ev = sv.export_as w.payload s ev
    ∧ (wrapperStarlarkValue M sv).set_at w vl vl2 = sv.set_at w.payload vl vl2
    ∧ (wrapperStarlarkValue M sv).set_attr w s vl = sv.set_attr w.payload s vl := by
  repeat' apply And.intro
  all_goals rfl

end AValue
